import Mathlib

/-!
Shallow embedding of the MCP gateway server (TypeScript sources under `src/`)
and proofs about its authentication gate, security policy enforcers, tool
dispatch, and session transport handlers.

JavaScript strings are modelled as Lean `String` (a list of characters); the
JavaScript string operations used by the code (`trim`, `toLowerCase`,
`startsWith`, `includes`, `split`) are modelled by executable functions over
the character list, written for the ASCII inputs the server manipulates.
-/

namespace MCP

/-- ASCII whitespace, the relevant subset of what JavaScript `trim` removes. -/
def isWs (c : Char) : Bool :=
  c = ' ' || c = '\t' || c = '\n' || c = '\r'

/-- Strip whitespace from both ends of a character list (JS `String.prototype.trim`). -/
def trimChars (l : List Char) : List Char :=
  ((l.dropWhile isWs).reverse.dropWhile isWs).reverse

/-- JS `s.trim()`. -/
def jsTrim (s : String) : String :=
  ⟨trimChars s.data⟩

/-- JS `s.toLowerCase()` on ASCII text. -/
def jsToLower (s : String) : String :=
  ⟨s.data.map Char.toLower⟩

/-- Boolean character-list prefix test. -/
def isPrefixCh : List Char → List Char → Bool
  | [], _ => true
  | _ :: _, [] => false
  | a :: as, b :: bs => a = b && isPrefixCh as bs

/-- JS `s.startsWith(p)`. -/
def jsStartsWith (s p : String) : Bool :=
  isPrefixCh p.data s.data

/-- Boolean character-list substring test. -/
def isInfixCh (sub : List Char) : List Char → Bool
  | [] => isPrefixCh sub []
  | l@(_ :: t) => isPrefixCh sub l || isInfixCh sub t

/-- JS `s.includes(sub)`. -/
def strContains (s sub : String) : Bool :=
  isInfixCh sub.data s.data

/-- Split a character list at every occurrence of the separator
(JS `String.prototype.split` with a one-character separator: adjacent
separators yield empty fields). -/
def splitOnChar (sep : Char) : List Char → List (List Char)
  | [] => [[]]
  | c :: t =>
    let r := splitOnChar sep t
    if c = sep then [] :: r
    else
      match r with
      | [] => [[c]]
      | h :: t2 => (c :: h) :: t2

/-- JS `s.split(sep)` for a one-character separator. -/
def jsSplit (sep : Char) (s : String) : List String :=
  (splitOnChar sep s.data).map fun l => ⟨l⟩

/- ## Authentication gate (`src/auth.ts`, `authMiddleware`) -/

/-- Observable outcome of the Express middleware: either a response with a
status code and an error body, or a hand-off to the next handler. -/
inductive AuthOutcome
  | respond (status : Nat) (error : String)
  | next
deriving DecidableEq

/-- `authMiddleware` from `src/auth.ts`.  `authHeader` is
`req.headers.authorization` (`none` models JS `undefined`) and
`expectedToken` is `process.env.MCP_TOKEN`.  JS truthiness makes the empty
string behave like a missing header or a missing token. -/
def authMiddleware (authHeader : Option String) (expectedToken : Option String) : AuthOutcome :=
  match expectedToken with
  | none => .respond 500 "Server misconfigured"
  | some expected =>
    if expected = "" then .respond 500 "Server misconfigured"
    else
      match authHeader with
      | none => .respond 401 "Authorization required"
      | some h =>
        if h = "" then .respond 401 "Authorization required"
        else
          let parts := jsSplit ' ' h
          let ty := parts[0]?
          let tok := parts[1]?
          if ty ≠ some "Bearer" ∨ tok ≠ some expected then .respond 401 "Invalid token"
          else .next

/-- Status code of an auth outcome, `none` on hand-off. -/
def statusOf : AuthOutcome → Option Nat
  | .respond s _ => some s
  | .next => none

/- Helper lemmas about the split of a well-formed bearer header. -/

theorem splitOnChar_no_sep (sep : Char) (l : List Char) (h : ∀ c ∈ l, c ≠ sep) :
    splitOnChar sep l = [l] := by
  induction l with
  | nil => rfl
  | cons c t ih =>
    have hc : c ≠ sep := h c (List.mem_cons_self c t)
    have ht : splitOnChar sep t = [t] := ih fun x hx => h x (List.mem_cons_of_mem c hx)
    simp [splitOnChar, hc, ht]

theorem jsSplit_bearer (e : String) (he : ∀ c ∈ e.data, c ≠ ' ') :
    jsSplit ' ' ("Bearer " ++ e) = ["Bearer", e] := by
  have hdata : ("Bearer " ++ e).data
      = 'B' :: 'e' :: 'a' :: 'r' :: 'e' :: 'r' :: ' ' :: e.data := rfl
  have hstep : splitOnChar ' ' ("Bearer " ++ e).data
      = "Bearer".data :: splitOnChar ' ' e.data := by
    rw [hdata]
    simp [splitOnChar]
  have htail : splitOnChar ' ' e.data = [e.data] := splitOnChar_no_sep ' ' e.data he
  rw [jsSplit, hstep, htail]
  rfl

/-- C1 counterexample: the missing-header rejection and the wrong-token
rejection carry the same status code 401 but different response bodies, so
the two observable rejections are not equal and the caller can distinguish
them. -/
theorem C1_counterexample :
    authMiddleware none (some "s3cret") = .respond 401 "Authorization required" ∧
    authMiddleware (some "Bearer wrong") (some "s3cret") = .respond 401 "Invalid token" ∧
    AuthOutcome.respond 401 "Authorization required" ≠ AuthOutcome.respond 401 "Invalid token" := by
  refine ⟨rfl, ?_, by decide⟩
  rfl

/-- C1 (amended): a request lacking the Authorization header and any request
whose header is present but rejected (in particular a wrong bearer token)
both receive status 401 — the same outward status code, though with
different error bodies — while a request bearing exactly
`Bearer <configured token>` (for a nonempty, space-free configured token) is
accepted and handed to the next handler. -/
theorem C1_auth_status (expected h : String)
    (hne : expected ≠ "")
    (hs : ∀ c ∈ expected.data, c ≠ ' ') :
    statusOf (authMiddleware none (some expected)) = some 401 ∧
    (authMiddleware (some h) (some expected) ≠ .next →
      statusOf (authMiddleware (some h) (some expected)) = some 401) ∧
    authMiddleware (some ("Bearer " ++ expected)) (some expected) = .next := by
  refine ⟨?_, ?_, ?_⟩
  · simp [authMiddleware, hne, statusOf]
  · intro hrej
    by_cases h0 : h = ""
    · simp [authMiddleware, hne, h0, statusOf]
    · simp only [authMiddleware, hne, if_neg hne, if_neg h0] at hrej ⊢
      by_cases hc : (jsSplit ' ' h)[0]? ≠ some "Bearer" ∨ (jsSplit ' ' h)[1]? ≠ some expected
      · simp [hc, statusOf]
      · exact absurd (by simp [hc]) hrej
  · have hsplit := jsSplit_bearer expected hs
    have hne2 : ("Bearer " ++ expected) ≠ "" := by
      intro hq
      have hd : 'B' :: 'e' :: 'a' :: 'r' :: 'e' :: 'r' :: ' ' :: expected.data
          = ([] : List Char) := congrArg String.data hq
      exact List.noConfusion hd
    simp [authMiddleware, hne, hne2, hsplit]

/-- Witness for C1's amended theorem at a concrete configuration. -/
theorem C1_auth_status_witness :
    statusOf (authMiddleware (some "Bearer wrong") (some "s3cret")) = some 401 ∧
    authMiddleware (some ("Bearer " ++ "s3cret")) (some "s3cret") = .next := by
  have h := C1_auth_status "s3cret" "Bearer wrong" (by decide) (by decide)
  exact ⟨h.2.1 (by decide), h.2.2⟩

/- ## Tool registry and dispatch (`src/tools/index.ts`) -/

/-- One block of a `CallToolResult`'s `content` array. -/
structure ContentBlock where
  type : String
  text : String
deriving DecidableEq

/-- The MCP `CallToolResult` envelope: content blocks plus the error flag
(absent `isError` on a success result is modelled as `false`). -/
structure CallToolResult where
  content : List ContentBlock
  isError : Bool
deriving DecidableEq

/-- A tool handler takes an argument bag and either returns a result or
throws; a thrown JS exception is modelled as `Except.error` carrying the
message extracted at the catch site. -/
def Handler (Args : Type) : Type :=
  Args → Except String CallToolResult

/-- The tool registry `Map<string, ToolDefinition>`, modelled by its
name-to-handler association; `List.lookup` is the `Map.get` of the key. -/
def getToolHandler {Args : Type} (registry : List (String × Handler Args)) (name : String) :
    Option (Handler Args) :=
  List.lookup name registry

/-- `callTool` from `src/tools/index.ts`: unknown names yield the
`Unknown tool` error result, a handler fault is caught and converted into
the `Tool error` result, and a Lean total function by construction — no
exception escapes the dispatch boundary. -/
def callTool {Args : Type} (registry : List (String × Handler Args)) (name : String)
    (args : Args) : CallToolResult :=
  match getToolHandler registry name with
  | none => ⟨[⟨"text", "Unknown tool: " ++ name⟩], true⟩
  | some handler =>
    match handler args with
    | .ok r => r
    | .error msg => ⟨[⟨"text", "Tool error: " ++ msg⟩], true⟩

theorem isPrefixCh_refl (l : List Char) : isPrefixCh l l = true := by
  induction l with
  | nil => rfl
  | cons c t ih => simp [isPrefixCh, ih]

theorem isInfixCh_append_self (pre m : List Char) : isInfixCh m (pre ++ m) = true := by
  induction pre with
  | nil =>
    cases m with
    | nil => rfl
    | cons c t => simp [isInfixCh, isPrefixCh_refl]
  | cons c t ih => simp [isInfixCh, ih]

/-- A string contains any of its own suffixes obtained by dropping a prefix. -/
theorem strContains_append_right (pre m : String) : strContains (pre ++ m) m = true := by
  have : (pre ++ m).data = pre.data ++ m.data := rfl
  rw [strContains, this]
  exact isInfixCh_append_self pre.data m.data

/-- C7: dispatching a name absent from the registry returns the error-flagged
`Unknown tool` result whose text contains the literal requested name, for
every argument bag; no exception is raised (the dispatcher is a total
function). -/
theorem C7_unknown_tool {Args : Type} (registry : List (String × Handler Args))
    (name : String) (args : Args)
    (habsent : getToolHandler registry name = none) :
    callTool registry name args = ⟨[⟨"text", "Unknown tool: " ++ name⟩], true⟩ ∧
    (callTool registry name args).isError = true ∧
    strContains ("Unknown tool: " ++ name) name = true := by
  refine ⟨?_, ?_, strContains_append_right "Unknown tool: " name⟩ <;>
    simp [callTool, habsent]

/-- Witness for C7 at a concrete empty registry and name. -/
theorem C7_unknown_tool_witness :
    callTool ([] : List (String × Handler Unit)) "frobnicate" ()
      = ⟨[⟨"text", "Unknown tool: frobnicate"⟩], true⟩ ∧
    strContains ("Unknown tool: " ++ "frobnicate") "frobnicate" = true := by
  have h := C7_unknown_tool ([] : List (String × Handler Unit)) "frobnicate" () rfl
  exact ⟨h.1, h.2.2⟩

/-- C8: if a registered handler throws, the dispatch boundary catches the
fault and returns the error-flagged `Tool error` result containing the
fault's message; since `callTool` is total, no exception propagates past
dispatch. -/
theorem C8_handler_fault {Args : Type} (registry : List (String × Handler Args))
    (name : String) (args : Args) (h : Handler Args) (msg : String)
    (hfound : getToolHandler registry name = some h)
    (hthrows : h args = .error msg) :
    callTool registry name args = ⟨[⟨"text", "Tool error: " ++ msg⟩], true⟩ ∧
    (callTool registry name args).isError = true ∧
    strContains ("Tool error: " ++ msg) msg = true := by
  refine ⟨?_, ?_, strContains_append_right "Tool error: " msg⟩ <;>
    simp [callTool, hfound, hthrows]

/-- Witness for C8 at a concrete registry holding one throwing handler. -/
theorem C8_handler_fault_witness :
    callTool [("boom", (fun _ => .error "kaboom" : Handler Unit))] "boom" ()
      = ⟨[⟨"text", "Tool error: kaboom"⟩], true⟩ ∧
    strContains ("Tool error: " ++ "kaboom") "kaboom" = true := by
  have h := C8_handler_fault [("boom", (fun _ => .error "kaboom" : Handler Unit))]
    "boom" () (fun _ => .error "kaboom") "kaboom" rfl rfl
  exact ⟨h.1, h.2.2⟩

/- ## Command whitelist (`src/tools/system.ts`) -/

/-- The hard-coded `ALLOWED_COMMANDS` set of `src/tools/system.ts`. -/
def ALLOWED_COMMANDS : List String :=
  ["uptime", "hostname", "df", "free", "top", "ps", "who", "date", "uname",
   "lsblk", "lscpu", "lsmem", "vcgencmd",
   "cat /proc/cpuinfo", "cat /proc/meminfo",
   "cat /sys/class/thermal/thermal_zone0/temp"]

/-- `isCommandAllowed` from `src/tools/system.ts`, parameterised over the
configured set it closes over: trim the candidate, then accept an exact
match or a match of the form `entry ++ " " ++ rest`. -/
def isCommandAllowed (allowed : List String) (cmd : String) : Bool :=
  let trimmed := jsTrim cmd
  allowed.contains trimmed || allowed.any fun a => jsStartsWith trimmed (a ++ " ")

/-- Modelled from the spec's words, for comparison with the code: the claim's
allow predicate applied to the raw candidate string, with no trimming —
"equals a configured entry exactly or begins with a configured entry
followed by an argument separator". -/
def commandAllowedSpec (allowed : List String) (cmd : String) : Bool :=
  allowed.contains cmd || allowed.any fun a => jsStartsWith cmd (a ++ " ")

/-- C4 counterexample: the code trims the candidate before matching, so the
whitespace-padded candidate `" df"` is allowed by the code although it
neither equals a configured entry nor begins with an entry followed by a
space, refuting the claim's characterisation on the raw string. -/
theorem C4_counterexample :
    isCommandAllowed ["df", "uptime"] " df" = true ∧
    commandAllowedSpec ["df", "uptime"] " df" = false := by
  exact ⟨rfl, rfl⟩

/-- C4 (amended): after trimming surrounding whitespace, the candidate is
allowed iff its trimmed form equals a configured entry exactly or begins
with a configured entry followed by a space; with
`allowedCommands = ["df", "uptime"]`, `"df -h"` is allowed while
`"rm -rf /"` and `"dfx"` are denied. -/
theorem C4_command_whitelist :
    (∀ (allowed : List String) (cmd : String),
      isCommandAllowed allowed cmd = true ↔
        (jsTrim cmd ∈ allowed ∨
          ∃ a ∈ allowed, jsStartsWith (jsTrim cmd) (a ++ " ") = true)) ∧
    isCommandAllowed ["df", "uptime"] "df -h" = true ∧
    isCommandAllowed ["df", "uptime"] "rm -rf /" = false ∧
    isCommandAllowed ["df", "uptime"] "dfx" = false := by
  refine ⟨?_, rfl, rfl, rfl⟩
  intro allowed cmd
  simp [isCommandAllowed, List.any_eq_true]

/- ## Path containment (`src/tools/obsidian.ts`, filesystem part: `isPathAllowed`) -/

/-- One step of POSIX path normalisation over the segment stack (most recent
segment first): empty and `.` segments are dropped, `..` pops the previous
segment (and is ignored at the root), anything else is pushed. -/
def resolveStep (acc : List (List Char)) (seg : List Char) : List (List Char) :=
  if seg = [] ∨ seg = ['.'] then acc
  else if seg = ['.', '.'] then acc.tail
  else seg :: acc

/-- Join path segments with `/`. -/
def joinSeg : List (List Char) → List Char
  | [] => []
  | [s] => s
  | s :: rest => s ++ '/' :: joinSeg rest

/-- Node `path.resolve(p)` on POSIX paths, with the process working directory
`cwd` (itself an absolute path) made explicit: an absolute `p` is normalised
as is, a relative `p` is resolved against `cwd`. -/
def pathResolve (cwd p : String) : String :=
  let full : List Char :=
    if isPrefixCh ['/'] p.data then p.data else cwd.data ++ '/' :: p.data
  let segs := ((splitOnChar '/' full).foldl resolveStep []).reverse
  ⟨'/' :: joinSeg segs⟩

/-- `isPathAllowed` from the filesystem tools: deny on an empty allowlist,
otherwise resolve the candidate and accept iff the resolved candidate starts
with the resolved form of some configured entry (plain character prefix). -/
def isPathAllowed (allowedPaths : List String) (cwd : String) (targetPath : String) : Bool :=
  if allowedPaths.length = 0 then false
  else
    let resolved := pathResolve cwd targetPath
    allowedPaths.any fun allowedPath => jsStartsWith resolved (pathResolve cwd allowedPath)

/-- C2: the enforcer resolves the candidate to canonical absolute form and
allows it iff the resolved form is prefixed by (the resolved form of) at
least one configured allowed path; with `allowedPaths = ["/data"]`,
`/data/sub/file.txt` is allowed, `/etc/passwd` and `/data/../etc/passwd`
are denied, and an empty allowlist denies every candidate. -/
theorem C2_path_containment (cwd : String) :
    isPathAllowed ["/data"] cwd "/data/sub/file.txt" = true ∧
    isPathAllowed ["/data"] cwd "/etc/passwd" = false ∧
    isPathAllowed ["/data"] cwd "/data/../etc/passwd" = false ∧
    (∀ target, isPathAllowed [] cwd target = false) ∧
    (∀ (allowed : List String) (target : String),
      isPathAllowed allowed cwd target = true ↔
        ∃ a ∈ allowed, jsStartsWith (pathResolve cwd target) (pathResolve cwd a) = true) := by
  refine ⟨rfl, rfl, rfl, fun target => rfl, ?_⟩
  intro allowed target
  rcases allowed with _ | ⟨a, t⟩
  · simp [isPathAllowed]
  · simp [isPathAllowed, List.any_eq_true]

/-- C9: the containment check is a plain character-prefix comparison with no
path-separator boundary required, so whenever some configured entry's
resolved form is a character prefix of the resolved candidate the candidate
is allowed — including the sibling path `/database/secret` under the entry
`/data`. -/
theorem C9_prefix_without_boundary :
    (∀ (cwd : String) (allowed : List String) (p target : String),
      p ∈ allowed →
      jsStartsWith (pathResolve cwd target) (pathResolve cwd p) = true →
      isPathAllowed allowed cwd target = true) ∧
    isPathAllowed ["/data"] "/" "/database/secret" = true := by
  refine ⟨?_, rfl⟩
  intro cwd allowed p target hp hpre
  have hlen : ¬ allowed.length = 0 := by
    intro h0
    rw [List.length_eq_zero] at h0
    subst h0
    exact absurd hp (List.not_mem_nil p)
  rw [isPathAllowed, if_neg hlen]
  simp only [List.any_eq_true]
  exact ⟨p, hp, hpre⟩

/-- Witness for C9 at a concrete sibling path. -/
theorem C9_prefix_without_boundary_witness :
    isPathAllowed ["/data"] "/" "/dataX" = true :=
  C9_prefix_without_boundary.1 "/" ["/data"] "/data" "/dataX" (by simp) (by decide)

/- ## Session transport (`src/tools/obsidian.ts`, server part: `setupMCPRoutes`) -/

/-- Observable action chosen by the `app.all` handler for the protocol
endpoint: forward the request to a transport (an existing one when a known
session id is supplied, a freshly constructed one otherwise), reject with an
HTTP error, or answer the session-less info probe. -/
inductive McpAction
  | handleExisting (sessionId : String)
  | handleNew
  | respondError (status : Nat) (error : String)
  | respondInfo
deriving DecidableEq

/-- The `app.all` protocol-endpoint handler, as a function of the request
method, the `mcp-session-id` header, and the key set of the `transports`
map; it returns the chosen action together with the (unchanged) key set —
insertion of a fresh id happens later, in the transport's initialisation
callback, never on this path. The branches mirror the source's if-chain:
known id → reuse; `POST` without id → new transport; unknown id → status 400
`Invalid session ID`; otherwise the info response. -/
def mcpAllHandler (method : String) (sessionId : Option String) (transports : List String) :
    McpAction × List String :=
  match sessionId with
  | some sid =>
    if transports.contains sid then (.handleExisting sid, transports)
    else (.respondError 400 "Invalid session ID", transports)
  | none =>
    if method = "POST" then (.handleNew, transports)
    else (.respondInfo, transports)

/-- The `app.delete` session-cleanup handler as written at the bottom of
`setupMCPRoutes`: a known id would be closed and removed from the map with
the `closed` body (status 200), anything else would get status 404
`Session not found` with the map untouched (`Map.delete` modelled by
filtering the key out of the key set).  This route is registered after
`app.all('/mcp', …)`; Express runs matching layers in registration order,
the catch-all matches DELETE as well, and every branch of the catch-all
completes the response without calling `next()`, so this handler is
unreachable in the running server — it documents the intended teardown
outcome, not the served one. -/
def mcpDeleteHandler (sessionId : Option String) (transports : List String) :
    (Nat × String) × List String :=
  match sessionId with
  | some sid =>
    if transports.contains sid then ((200, "closed"), transports.filter fun s => s ≠ sid)
    else ((404, "Session not found"), transports)
  | none => ((404, "Session not found"), transports)

/-- C5: for every method, a request whose session identifier is unknown to
the transport map is rejected with status 400 `Invalid session ID`, and the
map is unchanged — no new session is created for it. -/
theorem C5_unknown_session (method sid : String) (transports : List String)
    (hunknown : transports.contains sid = false) :
    mcpAllHandler method (some sid) transports
      = (.respondError 400 "Invalid session ID", transports) := by
  have hmem : sid ∉ transports := by simpa using hunknown
  simp [mcpAllHandler, hmem]

/-- Witness for C5 on an empty transport map. -/
theorem C5_unknown_session_witness :
    mcpAllHandler "POST" (some "deadbeef") []
      = (.respondError 400 "Invalid session ID", []) :=
  C5_unknown_session "POST" "deadbeef" [] rfl

/-- C6 (code bug): `setupMCPRoutes` registers the catch-all
`app.all('/mcp', …)` before `app.delete('/mcp', …)`; the catch-all matches
the DELETE method too and every one of its branches completes the response
itself, never calling `next()`, so the dedicated cleanup handler is dead
code.  A teardown request naming an unknown or already-closed session is
therefore served by the catch-all and answered 400 `Invalid session ID`
(and a DELETE carrying no session id gets the info response), never the 404
`Session not found` outcome that the shadowed cleanup handler — the
intended teardown behaviour — returns at the same input; the two outward
responses differ. -/
theorem C6_teardown_shadowed :
    mcpAllHandler "DELETE" (some "ghost") [] = (.respondError 400 "Invalid session ID", []) ∧
    mcpAllHandler "DELETE" none [] = (.respondInfo, []) ∧
    mcpDeleteHandler (some "ghost") [] = ((404, "Session not found"), []) ∧
    ((400 : Nat), "Invalid session ID") ≠ ((404 : Nat), "Session not found") := by
  exact ⟨rfl, rfl, rfl, by decide⟩

/- ## Read-only query filter and row cap (`src/tools/unifi.ts`, `query_sqlite` handler) -/

/-- The `forbidden` keyword list of the `query_sqlite` handler. -/
def forbiddenKeywords : List String :=
  ["insert", "update", "delete", "drop", "alter", "create", "attach", "detach"]

/-- `Math.min((args.limit as number) || 100, 1000)`: the JS `||` falls back
to 100 when the caller supplies no limit or the falsy 0 (numbers are
modelled as integers). -/
def effectiveLimit (limitArg : Option Int) : Int :=
  min (match limitArg with
       | none => 100
       | some v => if v = 0 then 100 else v) 1000

/-- Outcome of the `query_sqlite` handler's filter-and-build stage: one of
the two error results, or execution of the final query string. -/
inductive QueryOutcome
  | errorNotSelect
  | errorForbidden (word : String)
  | exec (finalQuery : String)
deriving DecidableEq

/-- Whether the outcome is a denial (an error result instead of execution). -/
def QueryOutcome.isDenied : QueryOutcome → Bool
  | .exec _ => false
  | _ => true

/-- The `query_sqlite` handler from `src/tools/unifi.ts` (its pure
filter-and-build stage): trim the query, lower-case it, reject non-`select`
statements, reject any statement containing a forbidden keyword as a
substring (first hit reported), then append ` LIMIT <n>` unless the
normalized text already contains the substring `limit`. -/
def querySqlite (rawQuery : String) (limitArg : Option Int) : QueryOutcome :=
  let query := jsTrim rawQuery
  let limit := effectiveLimit limitArg
  let normalized := jsToLower query
  if !jsStartsWith normalized "select" then .errorNotSelect
  else
    match forbiddenKeywords.find? fun w => strContains normalized w with
    | some w => .errorForbidden w
    | none =>
      if !strContains normalized "limit" then .exec (query ++ " LIMIT " ++ toString limit)
      else .exec query

theorem querySqlite_denied_iff (q : String) (l : Option Int) :
    (querySqlite q l).isDenied = false ↔
      (jsStartsWith (jsToLower (jsTrim q)) "select" = true ∧
        forbiddenKeywords.find? (fun w => strContains (jsToLower (jsTrim q)) w) = none) := by
  cases hsel : jsStartsWith (jsToLower (jsTrim q)) "select" with
  | false => simp [querySqlite, hsel, QueryOutcome.isDenied]
  | true =>
    rcases hf : forbiddenKeywords.find? (fun w => strContains (jsToLower (jsTrim q)) w)
        with _ | w
    · cases hlim : strContains (jsToLower (jsTrim q)) "limit" with
      | false => simp [querySqlite, hsel, hf, hlim, QueryOutcome.isDenied]
      | true => simp [querySqlite, hsel, hf, hlim, QueryOutcome.isDenied]
    · simp [querySqlite, hsel, hf, QueryOutcome.isDenied]

/-- C3: the statement filter denies every query whose normalized
(case-folded, trimmed) text does not begin with `select`, and denies every
query whose normalized text contains a mutating/DDL keyword as a substring
anywhere; it allows the rest — so `SELECT * FROM t` is allowed while
`select * from t; DROP TABLE t` and `update t set x=1` are denied. -/
theorem C3_statement_filter :
    (∀ (q : String) (l : Option Int),
      (querySqlite q l).isDenied = false ↔
        (jsStartsWith (jsToLower (jsTrim q)) "select" = true ∧
          ∀ w ∈ forbiddenKeywords, strContains (jsToLower (jsTrim q)) w = false)) ∧
    (querySqlite "SELECT * FROM t" none).isDenied = false ∧
    (querySqlite "select * from t; DROP TABLE t" none).isDenied = true ∧
    (querySqlite "update t set x=1" none).isDenied = true := by
  refine ⟨?_, rfl, rfl, rfl⟩
  intro q l
  rw [querySqlite_denied_iff]
  constructor
  · rintro ⟨hsel, hf⟩
    exact ⟨hsel, fun w hw => by simpa using List.find?_eq_none.mp hf w hw⟩
  · rintro ⟨hsel, hall⟩
    exact ⟨hsel, List.find?_eq_none.mpr fun w hw => by simp [hall w hw]⟩

/-- C10 counterexample: the handler trims the query before building the
final statement, so for the whitespace-padded query `"  select 1"` the
executed text is the trimmed query with ` LIMIT 100` appended, not the
caller's raw query with ` LIMIT 100` appended as the claim states. -/
theorem C10_counterexample :
    querySqlite "  select 1" none = .exec "select 1 LIMIT 100" ∧
    "select 1 LIMIT 100" ≠ "  select 1" ++ " LIMIT 100" := by
  exact ⟨rfl, by decide⟩

/-- C10 (amended): the effective row limit is
`min(caller-supplied limit or 100, 1000)` (JS `||`, so an absent or zero
limit becomes 100); for a query passing the statement filter, when the
normalized text does not contain the substring `limit` the executed query is
the trimmed caller's query with ` LIMIT <effective limit>` appended, and
when it does contain `limit` anywhere the trimmed query runs unchanged with
no cap applied. -/
theorem C10_limit_cap :
    ∀ (raw : String) (l : Option Int),
      jsStartsWith (jsToLower (jsTrim raw)) "select" = true →
      forbiddenKeywords.find? (fun w => strContains (jsToLower (jsTrim raw)) w) = none →
      ((strContains (jsToLower (jsTrim raw)) "limit" = false →
          querySqlite raw l = .exec (jsTrim raw ++ " LIMIT " ++
            toString (min (match l with
                           | none => (100 : Int)
                           | some v => if v = 0 then 100 else v) 1000))) ∧
        (strContains (jsToLower (jsTrim raw)) "limit" = true →
          querySqlite raw l = .exec (jsTrim raw))) := by
  intro raw l hsel hf
  constructor <;> intro hlim <;> simp [querySqlite, hsel, hf, hlim, effectiveLimit]

/-- Witness for C10's amended theorem at concrete queries and limit 5. -/
theorem C10_limit_cap_witness :
    querySqlite "select 1" (some 5) = .exec "select 1 LIMIT 5" ∧
    querySqlite "select 2 limit 7" (some 5) = .exec "select 2 limit 7" := by
  have h1 := (C10_limit_cap "select 1" (some 5) rfl rfl).1 rfl
  have h2 := (C10_limit_cap "select 2 limit 7" (some 5) rfl rfl).2 rfl
  exact ⟨h1, h2⟩

end MCP
